import Mathlib

/-!
Shallow embedding of the cronk library (`src/lib.rs`): a cron-like
next-occurrence generator.  Rust `u8` field values are modelled as `Nat`
(all cron field domains are far below 256, so wrap-around never occurs),
`i32` years as `Int`.  The `chrono` crate is the external calendar
authority; it is modelled by a proleptic Gregorian calendar
(`ymd_opt`, `dayOfWeek`, `daysInMonth`).  Stateful Rust iterators become
explicit state-passing functions; the unbounded search loop of
`Schedule::next` becomes a fuel-indexed function `Schedule.nextFuel`
together with `Schedule.loopIter`, which records that the loop can run a
given number of rejected iterations without panicking or returning.
Panicking operations (`unwrap` on an empty `Multiple` list, iterator
`next` returning `None`) are modelled with `Option`.
-/

namespace Cronk

/-- Calendar date, the model of a chrono `Date` value: year, month (1-12),
day of month (1-31). -/
structure CalDate where
  year : Int
  month : Nat
  day : Nat
deriving Repr, DecidableEq

/-- Gregorian leap-year rule, part of the calendar authority. -/
def isLeapYear (y : Int) : Bool :=
  y % 4 == 0 && (y % 100 != 0 || y % 400 == 0)

/-- Number of days in a month of a given year (0 for an invalid month). -/
def daysInMonth (y : Int) (m : Nat) : Nat :=
  match m with
  | 1 => 31
  | 2 => if isLeapYear y then 29 else 28
  | 3 => 31
  | 4 => 30
  | 5 => 31
  | 6 => 30
  | 7 => 31
  | 8 => 31
  | 9 => 30
  | 10 => 31
  | 11 => 30
  | 12 => 31
  | _ => 0

/-- Model of `Local.ymd_opt`: builds a calendar date when the triple is a
real Gregorian date, otherwise reports failure (`LocalResult::None` and
`LocalResult::Ambiguous` both map to `none`). -/
def ymd_opt (y : Int) (m d : Nat) : Option CalDate :=
  if 1 ≤ m ∧ m ≤ 12 ∧ 1 ≤ d ∧ d ≤ daysInMonth y m then some ⟨y, m, d⟩ else none

/-- Days since 1970-01-01 of a Gregorian date (Hinnant's civil-days
formula), used to model chrono's weekday computation. -/
def daysFromCivil (y : Int) (m d : Nat) : Int :=
  let yAdj : Int := if m ≤ 2 then y - 1 else y
  let era : Int := Int.fdiv yAdj 400
  let yoe : Int := yAdj - era * 400
  let mp : Int := (Int.ofNat m + 9) % 12
  let doy : Int := Int.fdiv (153 * mp + 2) 5 + Int.ofNat d - 1
  let doe : Int := yoe * 365 + Int.fdiv yoe 4 - Int.fdiv yoe 100 + doy
  era * 146097 + doe - 719468

/-- Model of chrono `date.weekday().num_days_from_sunday()`:
0 = Sunday .. 6 = Saturday. -/
def dayOfWeek (date : CalDate) : Nat :=
  ((daysFromCivil date.year date.month date.day + 4).emod 7).toNat

/-- Date order used by `candidate >= Local::today()`: lexicographic on
(year, month, day), the order chrono gives dates of one time zone. -/
def CalDate.leb (a b : CalDate) : Bool :=
  if a.year < b.year then true
  else if b.year < a.year then false
  else if a.month < b.month then true
  else if b.month < a.month then false
  else decide (a.day ≤ b.day)

/-- Model of a chrono `DateTime` as produced by `date.and_hms(h, m, 0)`. -/
structure DateTimeL where
  date : CalDate
  hour : Nat
  minute : Nat
  second : Nat
deriving Repr, DecidableEq

/-- The current local moment decomposed into the units `into_schedule`
reads from `Local::now()`. -/
structure NowInfo where
  minute : Nat
  hour : Nat
  day : Nat
  month : Nat
  year : Int
deriving Repr, DecidableEq

/-- Embeds `Field<T>` from `src/lib.rs`: a cron field specification. -/
inductive Field (α : Type) where
  | Single : α → Field α
  | Multiple : List α → Field α
  | Range : α → α → Field α
deriving Repr, DecidableEq

/-- Embeds `Field::seed`.  The Rust code calls `set.first().unwrap()`, which
panics on an empty list; the panic is modelled by `none`. -/
def Field.seed {α : Type} : Field α → Option α
  | .Single s => some s
  | .Multiple set => set.head?
  | .Range s _ => some s

/-- Embeds `Nth(u8)`: 1-based occurrence-within-month refinement. -/
structure Nth where
  val : Nat
deriving Repr, DecidableEq

/-- Embeds `Weekday`: a day-of-week field specification plus optional `Nth`. -/
structure Weekday where
  field : Field Nat
  nth : Option Nth
deriving Repr, DecidableEq

/-- Embeds `Weekday::is_valid`, translated clause by clause from `src/lib.rs`
lines 53-68. -/
def Weekday.is_valid (w : Weekday) (date : CalDate) : Bool :=
  let day_of_week := dayOfWeek date
  let is_correct_day :=
    match w.field with
    | .Single x => x == day_of_week
    | .Multiple set => set.contains day_of_week
    | .Range mn mx => decide (mn ≤ day_of_week) && decide (mx ≥ day_of_week)
  match w.nth with
  | none => is_correct_day
  | some ⟨n⟩ =>
    match date.day % 7 with
    | 0 => is_correct_day && n == date.day / 7
    | _ => is_correct_day && n == date.day / 7 + 1

/-- Embeds `SetTicker<T>`: cursor over an explicit list of values. -/
structure SetTicker (α : Type) where
  idx : Nat
  set : List α
deriving Repr, DecidableEq

/-- Embeds `SetTicker::new`. -/
def SetTicker.new {α : Type} (set : List α) : SetTicker α :=
  { idx := 0, set := set }

/-- Embeds `SetTicker::next` (`Iterator` impl, `src/lib.rs` lines 265-284).
In the Rust code the `0` arm reads `set.get(0)` and returns without
touching `idx`; the nonzero arm first does `self.idx += 1`, then looks
up the old index, resetting to `idx = 1` on wrap.  The returned pair is
(emitted item, successor state). -/
def SetTicker.next {α : Type} (t : SetTicker α) : Option (α × Bool) × SetTicker α :=
  match t.idx with
  | 0 => ((t.set.get? 0).map fun x => (x, false), t)
  | i + 1 =>
    match t.set.get? (i + 1) with
    | none => ((t.set.get? 0).map fun x => (x, true), { t with idx := 1 })
    | some x => (some (x, false), { t with idx := i + 2 })

/-- Embeds `RangeTicker<T>`, specialised to the `u8` instantiation the schedule
uses (modelled as `Nat`). -/
structure RangeTicker where
  min : Nat
  max : Nat
  current : Nat
deriving Repr, DecidableEq

/-- Embeds `RangeTicker::new`: cursor starts at the minimum. -/
def RangeTicker.new (mn mx : Nat) : RangeTicker :=
  { min := mn, max := mx, current := mn }

/-- Embeds `RangeTicker::with_current`: cursor starts at an arbitrary value. -/
def RangeTicker.with_current (mn mx cur : Nat) : RangeTicker :=
  { min := mn, max := mx, current := cur }

/-- Embeds `RangeTicker::next` (`Iterator` impl, `src/lib.rs` lines 306-322). -/
def RangeTicker.next (t : RangeTicker) : Option (Nat × Bool) × RangeTicker :=
  if t.min ≤ t.current ∧ t.current ≤ t.max then
    (some (t.current, false), { t with current := t.current + 1 })
  else
    (some (t.min, true), { t with current := t.min + 1 })

/-- Embeds `Increment<T>` at the `u8` instantiation: the ticker owned by the
schedule for one field. -/
inductive Increment where
  | Single : Nat → Increment
  | Multiple : SetTicker Nat → Increment
  | Range : RangeTicker → Increment
deriving Repr, DecidableEq

/-- Embeds `Increment`'s `Iterator` impl: `Single(x)` always yields `(x, true)`;
the other variants delegate to their ticker. -/
def Increment.next : Increment → Option (Nat × Bool) × Increment
  | .Single x => (some (x, true), .Single x)
  | .Multiple t =>
    let r := t.next
    (r.1, .Multiple r.2)
  | .Range t =>
    let r := t.next
    (r.1, .Range r.2)

/-- Embeds `Field::into_increment`. -/
def Field.into_increment : Field Nat → Increment
  | .Single x => .Single x
  | .Multiple set => .Multiple (SetTicker.new set)
  | .Range mn mx => .Range (RangeTicker.new mn mx)

/-- Embeds `CandidateDateTime`: the mutable working value advanced by the
ripple-carry loop; may name a calendar-invalid date. -/
structure CandidateDateTime where
  minute : Nat
  hour : Nat
  day : Nat
  month : Nat
  year : Int
deriving Repr, DecidableEq

/-- Embeds `Schedule`: one ticker per field, an optional weekday constraint and
the candidate. -/
structure Schedule where
  current : CandidateDateTime
  increment_minute : Increment
  increment_hour : Increment
  increment_dom : Increment
  increment_month : Increment
  dow : Option Weekday
deriving Repr, DecidableEq

/-- Embeds `Schedule::increment_minute`: one ticker call plus field store; the
`.unwrap()` panic is modelled by `none`. -/
def Schedule.stepMinute (s : Schedule) : Option (Bool × Schedule) :=
  match s.increment_minute.next with
  | (some (v, c), inc) =>
    some (c, { s with current := { s.current with minute := v }, increment_minute := inc })
  | (none, _) => none

/-- Embeds `Schedule::increment_hour`. -/
def Schedule.stepHour (s : Schedule) : Option (Bool × Schedule) :=
  match s.increment_hour.next with
  | (some (v, c), inc) =>
    some (c, { s with current := { s.current with hour := v }, increment_hour := inc })
  | (none, _) => none

/-- Embeds `Schedule::increment_dom`. -/
def Schedule.stepDom (s : Schedule) : Option (Bool × Schedule) :=
  match s.increment_dom.next with
  | (some (v, c), inc) =>
    some (c, { s with current := { s.current with day := v }, increment_dom := inc })
  | (none, _) => none

/-- Embeds `Schedule::increment_month`. -/
def Schedule.stepMonth (s : Schedule) : Option (Bool × Schedule) :=
  match s.increment_month.next with
  | (some (v, c), inc) =>
    some (c, { s with current := { s.current with month := v }, increment_month := inc })
  | (none, _) => none

/-- Embeds `Schedule::increment_date` (`src/lib.rs` lines 175-193): ripple-carry
chain minute, hour, day-of-month, month; year increments on month carry. -/
def Schedule.increment_date (s : Schedule) : Option Schedule :=
  match s.stepMinute with
  | none => none
  | some (false, s) => some s
  | some (true, s) =>
    match s.stepHour with
    | none => none
    | some (false, s) => some s
    | some (true, s) =>
      match s.stepDom with
      | none => none
      | some (false, s) => some s
      | some (true, s) =>
        match s.stepMonth with
        | none => none
        | some (false, s) => some s
        | some (true, s) =>
          some { s with current := { s.current with year := s.current.year + 1 } }

/-- Embeds `Schedule::is_valid_weekday`. -/
def Schedule.is_valid_weekday (s : Schedule) (date : CalDate) : Bool :=
  match s.dow with
  | some dow => dow.is_valid date
  | none => true

/-- One iteration of the `Schedule::next` loop body: increment, attempt
calendar construction, test acceptance.  Result `none` models a panic;
`some (none, s)` means the candidate was rejected and the loop continues
with state `s`; `some (some dt, s)` means `dt` is returned. -/
def Schedule.step (today : CalDate) (s : Schedule) : Option (Option DateTimeL × Schedule) :=
  match s.increment_date with
  | none => none
  | some s =>
    match ymd_opt s.current.year s.current.month s.current.day with
    | none => some (none, s)
    | some candidate =>
      if CalDate.leb today candidate && s.is_valid_weekday candidate then
        some (some ⟨candidate, s.current.hour, s.current.minute, 0⟩, s)
      else
        some (none, s)

/-- Embeds `Schedule::next` as a fuel-indexed loop: `none` when fuel runs out
(the loop has not returned yet) or on panic. -/
def Schedule.nextFuel (today : CalDate) : Nat → Schedule → Option (DateTimeL × Schedule)
  | 0, _ => none
  | fuel + 1, s =>
    match s.step today with
    | none => none
    | some (some dt, s) => some (dt, s)
    | some (none, s) => Schedule.nextFuel today fuel s

/-- Runs `n` rejected iterations of the `Schedule::next` loop; `some`
exactly when every one of those iterations neither panicked nor
returned a value. -/
def Schedule.loopIter (today : CalDate) : Nat → Schedule → Option Schedule
  | 0, s => some s
  | n + 1, s =>
    match s.step today with
    | some (none, s) => Schedule.loopIter today n s
    | _ => none

/-- The per-field seed of `into_schedule`:
`field.as_ref().map(|x| x.seed()).unwrap_or_else(|| current_unit)`. -/
def seedOf (f : Option (Field Nat)) (currentUnit : Nat) : Option Nat :=
  match f with
  | some f => f.seed
  | none => some currentUnit

/-- The per-field ticker of `into_schedule`:
`field.map(Field::into_increment).unwrap_or_else(|| full-domain range
ticker with cursor at the current unit)`. -/
def incOf (f : Option (Field Nat)) (mn mx currentUnit : Nat) : Increment :=
  match f with
  | some f => f.into_increment
  | none => .Range (RangeTicker.with_current mn mx currentUnit)

/-- Embeds `Expression`: optional field specification per unit plus optional
weekday constraint. -/
structure Expression where
  minute : Option (Field Nat)
  hour : Option (Field Nat)
  dom : Option (Field Nat)
  month : Option (Field Nat)
  dow : Option Weekday
deriving Repr, DecidableEq

/-- Embeds `Expression::into_schedule` (`src/lib.rs` lines 80-139), with the
single `Local::now()` read passed in as `now`.  `none` models the
`unwrap` panic on an empty `Multiple` list. -/
def Expression.into_schedule (e : Expression) (now : NowInfo) : Option Schedule :=
  match seedOf e.minute now.minute, seedOf e.hour now.hour,
        seedOf e.dom now.day, seedOf e.month now.month with
  | some minute, some hour, some day, some month =>
    some
      { current := ⟨minute, hour, day, month, now.year⟩
        increment_minute := incOf e.minute 0 59 now.minute
        increment_hour := incOf e.hour 0 23 now.hour
        increment_dom := incOf e.dom 1 31 now.day
        increment_month := incOf e.month 1 12 now.month
        dow := e.dow }
  | _, _, _, _ => none

/-- Spec-side restatement of the weekday validity rule, following the
specification's words: match the day-of-week field, and when `Nth(n)` is
present additionally require `n = ceil(day_of_month / 7)` (written with
the Nat ceiling division `(day + 6) / 7`).  Used only to compare against
the source-derived `Weekday.is_valid`. -/
def specWeekdayValid (w : Weekday) (d : CalDate) : Bool :=
  let day_of_week := dayOfWeek d
  let fieldOk :=
    match w.field with
    | .Single x => x == day_of_week
    | .Multiple set => set.contains day_of_week
    | .Range mn mx => decide (mn ≤ day_of_week) && decide (day_of_week ≤ mx)
  match w.nth with
  | none => fieldOk
  | some ⟨n⟩ => fieldOk && n == (d.day + 6) / 7

/-- Threads `n + 1` successive `SetTicker.next` calls and returns the
last call's output together with the state after it. -/
def SetTicker.iter {α : Type} (t : SetTicker α) : Nat → Option (α × Bool) × SetTicker α
  | 0 => t.next
  | n + 1 => (t.next.2).iter n

/-- Threads `n + 1` successive `Increment.next` calls and returns the
last call's output together with the state after it. -/
def Increment.iter (t : Increment) : Nat → Option (Nat × Bool) × Increment
  | 0 => t.next
  | n + 1 => (t.next.2).iter n

/-- True when the ticker is not a `Multiple`: such tickers always yield
an item (never panic) and keep this shape. -/
def Increment.noMultiple : Increment → Bool
  | .Multiple _ => false
  | _ => true

/-- Loop invariant of the unsatisfiable February-31st schedule: the
candidate is pinned to day 31 of month 2, the day and month tickers are
the corresponding `Single` tickers, and the minute and hour tickers
cannot panic. -/
def FebInv (s : Schedule) : Prop :=
  s.current.day = 31 ∧ s.current.month = 2 ∧
  s.increment_dom = .Single 31 ∧ s.increment_month = .Single 2 ∧
  s.increment_minute.noMultiple = true ∧ s.increment_hour.noMultiple = true

/-- The expression of the unsatisfiable scenario: day-of-month
`Single(31)`, month `Single(2)`, other fields unspecified. -/
def feb31Expr : Expression :=
  ⟨none, none, some (.Single 31), some (.Single 2), none⟩

/-- Concrete moment used to instantiate the February-31st scenario. -/
def now9 : NowInfo := ⟨0, 0, 1, 1, 2021⟩

/-- The schedule `feb31Expr.into_schedule now9` produces. -/
def s9 : Schedule :=
  { current := ⟨0, 0, 31, 2, 2021⟩
    increment_minute := .Range ⟨0, 59, 0⟩
    increment_hour := .Range ⟨0, 23, 0⟩
    increment_dom := .Single 31
    increment_month := .Single 2
    dow := none }

/-- Expression whose hour field is a `Multiple` list: minute `Single 0`,
hour `Multiple [5, 6]`, day-of-month `Single 15`, month `Single 6`. -/
def e8 : Expression :=
  ⟨some (.Single 0), some (.Multiple [5, 6]), some (.Single 15), some (.Single 6), none⟩

/-- Concrete moment 2021-06-10 00:00 for the repeated-timestamp run. -/
def now8 : NowInfo := ⟨0, 0, 10, 6, 2021⟩

/-- Calendar day of `now8`. -/
def today8 : CalDate := ⟨2021, 6, 10⟩

/-- The schedule `e8.into_schedule now8` produces.  One search step maps
it back to itself while returning a timestamp. -/
def s8 : Schedule :=
  { current := ⟨0, 5, 15, 6, 2021⟩
    increment_minute := .Single 0
    increment_hour := .Multiple (SetTicker.new [5, 6])
    increment_dom := .Single 15
    increment_month := .Single 6
    dow := none }

/-- The timestamp every call on `s8` returns. -/
def dt8 : DateTimeL := ⟨⟨2021, 6, 15⟩, 5, 0, 0⟩

/-- Expression for the same-day acceptance run: minute `Single 0`, hour
`Range 0 23`, day-of-month and month unspecified. -/
def e6 : Expression :=
  ⟨some (.Single 0), some (.Range 0 23), none, none, none⟩

/-- Concrete moment 2021-06-15 12:34 for the same-day acceptance run. -/
def now6 : NowInfo := ⟨34, 12, 15, 6, 2021⟩

/-- Calendar day of `now6`. -/
def today6 : CalDate := ⟨now6.year, now6.month, now6.day⟩

/-- The schedule `e6.into_schedule now6` produces. -/
def s6 : Schedule :=
  { current := ⟨0, 0, 15, 6, 2021⟩
    increment_minute := .Single 0
    increment_hour := .Range ⟨0, 23, 0⟩
    increment_dom := .Range ⟨1, 31, 15⟩
    increment_month := .Range ⟨1, 12, 6⟩
    dow := none }

/-- State of `s6` after its first accepted search step. -/
def t6 : Schedule :=
  { s6 with increment_hour := .Range ⟨0, 23, 1⟩ }

/-- First timestamp `s6` returns: 2021-06-15 00:00:00, earlier on the
same day than the 12:34 clock reading of `now6`. -/
def dt6 : DateTimeL := ⟨⟨2021, 6, 15⟩, 0, 0, 0⟩

/-- Schedule whose next candidate is the invalid date 2021-02-31: used
to exercise the silent-discard branch. -/
def s7 : Schedule :=
  { current := ⟨0, 0, 31, 2, 2021⟩
    increment_minute := .Range ⟨0, 59, 5⟩
    increment_hour := .Range ⟨0, 23, 0⟩
    increment_dom := .Single 31
    increment_month := .Single 2
    dow := none }

/-- State of `s7` after one ripple-carry increment (minute became 5). -/
def t7 : Schedule :=
  { s7 with current := { s7.current with minute := 5 }, increment_minute := .Range ⟨0, 59, 6⟩ }

/-- Schedule used to instantiate the ripple-carry chain theorem: the
minute ticker does not carry, so only the minute changes. -/
def sC2 : Schedule :=
  { current := ⟨0, 0, 15, 6, 2021⟩
    increment_minute := .Range ⟨0, 59, 10⟩
    increment_hour := .Single 4
    increment_dom := .Single 15
    increment_month := .Single 6
    dow := none }

/-- State of `sC2` after one ripple-carry increment. -/
def tC2 : Schedule :=
  { sC2 with current := { sC2.current with minute := 10 }, increment_minute := .Range ⟨0, 59, 11⟩ }

/-- C3: for a range ticker with `min ≤ max`, a cursor inside `[min, max]`
yields `(current, false)` and advances the cursor by one, while a cursor
outside the bounds yields `(min, true)` and resets the cursor to
`min + 1`; so `mustCarry = true` is reported exactly on the tick that
returns the range minimum after a wrap. -/
theorem range_ticker_wrap_spec (mn mx cur : Nat) (h : mn ≤ mx) :
    (mn ≤ cur ∧ cur ≤ mx →
      RangeTicker.next ⟨mn, mx, cur⟩ = (some (cur, false), ⟨mn, mx, cur + 1⟩)) ∧
    (mx < cur ∨ cur < mn →
      RangeTicker.next ⟨mn, mx, cur⟩ = (some (mn, true), ⟨mn, mx, mn + 1⟩)) := by
  constructor
  · intro hin
    simp [RangeTicker.next, hin]
  · intro hout
    have hnot : ¬(mn ≤ cur ∧ cur ≤ mx) := by omega
    simp [RangeTicker.next, hnot]

/-- Witness for `range_ticker_wrap_spec` at `min = 0`, `max = 59` with an
in-range cursor 10 and the out-of-range cursor 60. -/
theorem range_ticker_wrap_spec_witness :
    RangeTicker.next ⟨0, 59, 10⟩ = (some (10, false), ⟨0, 59, 11⟩) ∧
    RangeTicker.next ⟨0, 59, 60⟩ = (some (0, true), ⟨0, 59, 1⟩) :=
  ⟨(range_ticker_wrap_spec 0 59 10 (by decide)).1 ⟨by decide, by decide⟩,
   (range_ticker_wrap_spec 0 59 60 (by decide)).2 (Or.inl (by decide))⟩

/-- C4: `Weekday.is_valid` agrees with the specification's rule: the
weekday field must match (equality, membership or inclusive bounds
against the 0-from-Sunday weekday) and, when `Nth(n)` is present, `n`
must equal `ceil(day_of_month / 7)`. -/
theorem weekday_is_valid_matches_spec (w : Weekday) (d : CalDate) :
    w.is_valid d = specWeekdayValid w d := by
  unfold Weekday.is_valid specWeekdayValid
  rcases w with ⟨f, _ | ⟨n⟩⟩
  · rfl
  · simp only
    rcases hmod : d.day % 7 with _ | k
    · have hdiv : d.day / 7 = (d.day + 6) / 7 := by omega
      simp only [hdiv]
    · have hdiv : d.day / 7 + 1 = (d.day + 6) / 7 := by omega
      simp only [hdiv]

/-- C10: a `SetTicker` built by `SetTicker::new` on a non-empty list
starts at index 0, and because the index-0 branch never advances the
index, every call returns the first element paired with `false` and
leaves the ticker in its initial state; the same holds for the
`Multiple` increment built by `Field::into_increment`. -/
theorem set_ticker_stuck_at_first (x : Nat) (xs : List Nat) (n : Nat) :
    SetTicker.iter (SetTicker.new (x :: xs)) n = (some (x, false), SetTicker.new (x :: xs)) ∧
    Field.into_increment (.Multiple (x :: xs)) = .Multiple (SetTicker.new (x :: xs)) ∧
    Increment.iter (Field.into_increment (.Multiple (x :: xs))) n
      = (some (x, false), .Multiple (SetTicker.new (x :: xs))) := by
  refine ⟨?_, rfl, ?_⟩
  · induction n with
    | zero => rfl
    | succ n ihn => exact ihn
  · induction n with
    | zero => rfl
    | succ n ihn => exact ihn

/-- C1 divergence: the second call to a freshly built `SetTicker` over
`[1, 2]` again returns `(1, false)` with unchanged state, where the
claimed cycling contract requires `(2, false)`. -/
theorem set_ticker_second_call_no_advance :
    (SetTicker.new [1, 2]).next = (some (1, false), SetTicker.new [1, 2]) ∧
    ((SetTicker.new [1, 2]).next.2).next = (some (1, false), SetTicker.new [1, 2]) :=
  ⟨rfl, rfl⟩

/-- C8 divergence: the schedule `e8` produces maps to itself in one
accepted search step while returning `dt8`, so consecutive calls to the
next-occurrence loop return the identical timestamp
2021-06-15 05:00:00 instead of strictly increasing ones. -/
theorem schedule_repeats_timestamp :
    e8.into_schedule now8 = some s8 ∧
    Schedule.nextFuel today8 1 s8 = some (dt8, s8) := by
  exact ⟨by decide, by decide⟩

/-- C2: `Schedule.increment_date` calls the tickers in the fixed order
minute, hour, day-of-month, month; the minute value is always stored;
the chain stops at the first ticker whose carry is `false` (nothing past
it changes); and a month carry increments the year by exactly one and
always ends the chain. -/
theorem increment_date_chain (s : Schedule)
    (vm : Nat) (cm : Bool) (im : Increment)
    (hm : s.increment_minute.next = (some (vm, cm), im))
    (vh : Nat) (ch : Bool) (ihr : Increment)
    (hh : s.increment_hour.next = (some (vh, ch), ihr))
    (vd : Nat) (cd : Bool) (idm : Increment)
    (hd : s.increment_dom.next = (some (vd, cd), idm))
    (vo : Nat) (co : Bool) (imo : Increment)
    (ho : s.increment_month.next = (some (vo, co), imo)) :
    (cm = false →
      s.increment_date = some
        { s with current := { s.current with minute := vm }, increment_minute := im }) ∧
    (cm = true → ch = false →
      s.increment_date = some
        { s with current := { s.current with minute := vm, hour := vh },
                 increment_minute := im, increment_hour := ihr }) ∧
    (cm = true → ch = true → cd = false →
      s.increment_date = some
        { s with current := { s.current with minute := vm, hour := vh, day := vd },
                 increment_minute := im, increment_hour := ihr, increment_dom := idm }) ∧
    (cm = true → ch = true → cd = true → co = false →
      s.increment_date = some
        { s with current := { s.current with minute := vm, hour := vh, day := vd, month := vo },
                 increment_minute := im, increment_hour := ihr, increment_dom := idm,
                 increment_month := imo }) ∧
    (cm = true → ch = true → cd = true → co = true →
      s.increment_date = some
        { s with current := { s.current with minute := vm, hour := vh, day := vd, month := vo, year := s.current.year + 1 },
                 increment_minute := im, increment_hour := ihr, increment_dom := idm,
                 increment_month := imo }) ∧
    (∀ t, s.increment_date = some t → t.current.minute = vm) := by
  refine ⟨?_, ?_, ?_, ?_, ?_, ?_⟩
  · rintro rfl
    simp [Schedule.increment_date, Schedule.stepMinute, hm]
  · rintro rfl rfl
    simp [Schedule.increment_date, Schedule.stepMinute, Schedule.stepHour, hm, hh]
  · rintro rfl rfl rfl
    simp [Schedule.increment_date, Schedule.stepMinute, Schedule.stepHour, Schedule.stepDom,
      hm, hh, hd]
  · rintro rfl rfl rfl rfl
    simp [Schedule.increment_date, Schedule.stepMinute, Schedule.stepHour, Schedule.stepDom,
      Schedule.stepMonth, hm, hh, hd, ho]
  · rintro rfl rfl rfl rfl
    simp [Schedule.increment_date, Schedule.stepMinute, Schedule.stepHour, Schedule.stepDom,
      Schedule.stepMonth, hm, hh, hd, ho]
  · intro t ht
    cases cm <;> cases ch <;> cases cd <;> cases co <;>
      simp only [Schedule.increment_date, Schedule.stepMinute, Schedule.stepHour,
        Schedule.stepDom, Schedule.stepMonth, hm, hh, hd, ho, Option.some.injEq] at ht <;>
      subst ht <;> rfl

/-- Witness for `increment_date_chain` at the concrete schedule `sC2`,
whose minute ticker does not carry. -/
theorem increment_date_chain_witness : Schedule.increment_date sC2 = some tC2 := by
  have h := increment_date_chain sC2
    10 false (.Range ⟨0, 59, 11⟩) (by decide)
    4 true (.Single 4) (by decide)
    15 true (.Single 15) (by decide)
    6 true (.Single 6) (by decide)
  exact (h.1 rfl).trans (by decide)

/-- C7: a candidate whose (year, month, day) fails calendar construction
is silently discarded — the search step reports "continue", never an
error — and the loop then proceeds with the next candidate. -/
theorem invalid_candidate_discarded :
    (∀ (today : CalDate) (s t : Schedule),
      s.increment_date = some t →
      ymd_opt t.current.year t.current.month t.current.day = none →
      s.step today = some (none, t)) ∧
    (∀ (today : CalDate) (fuel : Nat) (s t : Schedule),
      s.step today = some (none, t) →
      Schedule.nextFuel today (fuel + 1) s = Schedule.nextFuel today fuel t) := by
  constructor
  · intro today s t h1 h2
    simp [Schedule.step, h1, h2]
  · intro today fuel s t h
    simp [Schedule.nextFuel, h]

/-- Witness for `invalid_candidate_discarded`: the schedule `s7` steps to
the invalid candidate 2021-02-31, which is discarded, and the loop
continues from `t7`. -/
theorem invalid_candidate_discarded_witness :
    Schedule.step ⟨2021, 2, 1⟩ s7 = some (none, t7) ∧
    Schedule.nextFuel ⟨2021, 2, 1⟩ 1 s7 = Schedule.nextFuel ⟨2021, 2, 1⟩ 0 t7 := by
  have h1 := invalid_candidate_discarded.1 ⟨2021, 2, 1⟩ s7 t7 (by decide) (by decide)
  exact ⟨h1, invalid_candidate_discarded.2 ⟨2021, 2, 1⟩ 0 s7 t7 h1⟩

/-- C6: a search step accepts its candidate exactly when the constructed
calendar date is not earlier than today and the weekday constraint (when
present) validates it, returning that date with the candidate's hour and
minute and seconds 0; and, because only the date is compared against
today, there is a run (`s6` from `e6` at moment `now6`, 12:34 on
2021-06-15) whose returned timestamp lies on the current day strictly
earlier than the current clock time. -/
theorem next_acceptance_date_only :
    (∀ (today : CalDate) (s t : Schedule) (cand : CalDate),
      s.increment_date = some t →
      ymd_opt t.current.year t.current.month t.current.day = some cand →
      s.step today =
        if CalDate.leb today cand && t.is_valid_weekday cand then
          some (some ⟨cand, t.current.hour, t.current.minute, 0⟩, t)
        else some (none, t)) ∧
    (e6.into_schedule now6 = some s6 ∧
      Schedule.nextFuel today6 1 s6 = some (dt6, t6) ∧
      dt6.date = today6 ∧
      dt6.hour * 60 + dt6.minute < now6.hour * 60 + now6.minute) := by
  constructor
  · intro today s t cand h1 h2
    simp [Schedule.step, h1, h2]
  · exact ⟨by decide, by decide, by decide, by decide⟩

/-- Witness for `next_acceptance_date_only`: one accepted step of `s6`
evaluated through the theorem's general clause. -/
theorem next_acceptance_date_only_witness :
    Schedule.step today6 s6 = some (some dt6, t6) := by
  have h := next_acceptance_date_only.1 today6 s6 t6 ⟨2021, 6, 15⟩ (by decide) (by decide)
  exact h.trans (by decide)

/-- A ticker that is not a `Multiple` always yields an item and keeps
that shape. -/
theorem Increment.noMultiple_next {t : Increment} (h : t.noMultiple = true) :
    ∃ v c t', t.next = (some (v, c), t') ∧ t'.noMultiple = true := by
  cases t with
  | Single x => exact ⟨x, true, .Single x, rfl, rfl⟩
  | Multiple tk => simp [Increment.noMultiple] at h
  | Range tk =>
    by_cases hc : tk.min ≤ tk.current ∧ tk.current ≤ tk.max
    · exact ⟨tk.current, false, .Range { tk with current := tk.current + 1 },
        by simp [Increment.next, RangeTicker.next, hc], rfl⟩
    · exact ⟨tk.min, true, .Range { tk with current := tk.min + 1 },
        by simp [Increment.next, RangeTicker.next, hc], rfl⟩

/-- February has at most 29 days, so day 31 of month 2 never constructs. -/
theorem ymd_opt_feb31 (y : Int) : ymd_opt y 2 31 = none := by
  unfold ymd_opt daysInMonth
  cases isLeapYear y <;> simp

/-- One search step of a schedule satisfying `FebInv` rejects its
candidate and preserves the invariant. -/
theorem feb_step (today : CalDate) {s : Schedule} (h : FebInv s) :
    ∃ t, s.step today = some (none, t) ∧ FebInv t := by
  obtain ⟨hday, hmonth, hdom, hmon, hmin, hhour⟩ := h
  obtain ⟨vm, cm, im, hm, him⟩ := Increment.noMultiple_next hmin
  obtain ⟨vh, ch, ihr, hh, hih⟩ := Increment.noMultiple_next hhour
  cases cm with
  | false =>
    refine ⟨{ s with current := { s.current with minute := vm }, increment_minute := im }, ?_, ?_⟩
    · have hid : s.increment_date = some
          { s with current := { s.current with minute := vm }, increment_minute := im } := by
        simp [Schedule.increment_date, Schedule.stepMinute, hm]
      simp [Schedule.step, hid, hday, hmonth, ymd_opt_feb31]
    · exact ⟨hday, hmonth, hdom, hmon, him, hhour⟩
  | true =>
    cases ch with
    | false =>
      refine ⟨{ s with current := { s.current with minute := vm, hour := vh }, increment_minute := im, increment_hour := ihr }, ?_, ?_⟩
      · have hid : s.increment_date = some
            { s with current := { s.current with minute := vm, hour := vh }, increment_minute := im, increment_hour := ihr } := by
          simp [Schedule.increment_date, Schedule.stepMinute, Schedule.stepHour, hm, hh]
        simp [Schedule.step, hid, hday, hmonth, ymd_opt_feb31]
      · exact ⟨hday, hmonth, hdom, hmon, him, hih⟩
    | true =>
      refine ⟨{ s with current := { s.current with minute := vm, hour := vh, day := 31, month := 2, year := s.current.year + 1 }, increment_minute := im, increment_hour := ihr, increment_dom := .Single 31, increment_month := .Single 2 }, ?_, ?_⟩
      · have hdn : s.increment_dom.next = (some (31, true), .Single 31) := by
          rw [hdom]; rfl
        have hmn : s.increment_month.next = (some (2, true), .Single 2) := by
          rw [hmon]; rfl
        have hid : s.increment_date = some
            { s with current := { s.current with minute := vm, hour := vh, day := 31, month := 2, year := s.current.year + 1 }, increment_minute := im, increment_hour := ihr, increment_dom := .Single 31, increment_month := .Single 2 } := by
          simp [Schedule.increment_date, Schedule.stepMinute, Schedule.stepHour,
            Schedule.stepDom, Schedule.stepMonth, hm, hh, hdn, hmn]
        simp [Schedule.step, hid, ymd_opt_feb31]
      · exact ⟨rfl, rfl, rfl, rfl, him, hih⟩

/-- Every number of rejected iterations is reachable without panic or
return from a schedule satisfying `FebInv`. -/
theorem feb_loopIter (today : CalDate) :
    ∀ (n : Nat) (s : Schedule), FebInv s →
      ∃ t, Schedule.loopIter today n s = some t ∧ FebInv t
  | 0, s, h => ⟨s, rfl, h⟩
  | n + 1, s, h => by
    obtain ⟨t, hstep, ht⟩ := feb_step today h
    obtain ⟨u, hu, hinv⟩ := feb_loopIter today n t ht
    exact ⟨u, by simp [Schedule.loopIter, hstep, hu], hinv⟩

/-- No amount of fuel makes the search loop return from a schedule
satisfying `FebInv`. -/
theorem feb_nextFuel (today : CalDate) :
    ∀ (fuel : Nat) (s : Schedule), FebInv s → Schedule.nextFuel today fuel s = none
  | 0, _, _ => rfl
  | fuel + 1, s, h => by
    obtain ⟨t, hstep, ht⟩ := feb_step today h
    simp [Schedule.nextFuel, hstep, feb_nextFuel today fuel t ht]

/-- C9: for the unsatisfiable expression with day-of-month `Single(31)`
and month `Single(2)`, the next-occurrence search never returns under
any amount of fuel, and every prefix of the loop consists of rejected
iterations that neither panic nor return. -/
theorem feb31_next_never_returns (now : NowInfo) (today : CalDate) (s : Schedule)
    (h : feb31Expr.into_schedule now = some s) :
    (∀ fuel, Schedule.nextFuel today fuel s = none) ∧
    (∀ n, (Schedule.loopIter today n s).isSome = true) := by
  have hinv : FebInv s := by
    simp only [Expression.into_schedule, feb31Expr, seedOf, Field.seed, incOf,
      Field.into_increment, Option.some.injEq] at h
    subst h
    exact ⟨rfl, rfl, rfl, rfl, rfl, rfl⟩
  constructor
  · exact fun fuel => feb_nextFuel today fuel s hinv
  · intro n
    obtain ⟨t, ht, _⟩ := feb_loopIter today n s hinv
    simp [ht]

/-- Witness for `feb31_next_never_returns` at the concrete moment
`now9` and today 2021-01-01. -/
theorem feb31_next_never_returns_witness :
    Schedule.nextFuel ⟨2021, 1, 1⟩ 3 s9 = none ∧
    (Schedule.loopIter ⟨2021, 1, 1⟩ 2 s9).isSome = true := by
  have h := feb31_next_never_returns now9 ⟨2021, 1, 1⟩ s9 (by decide)
  exact ⟨h.1 3, h.2 2⟩

/-- C5: converting an expression into a schedule seeds every specified
component with the field specification's seed value and builds its
ticker with `Field.into_increment`, seeds every unspecified component
with the current moment's value for that unit and builds a full-domain
range ticker whose cursor starts at that value, and always seeds the
year from the current moment's year; the trailing clauses record what
the seed value is for each field shape. -/
theorem into_schedule_seeding (e : Expression) (now : NowInfo) (s : Schedule)
    (h : e.into_schedule now = some s) :
    s.current.year = now.year ∧
    (∀ f, e.minute = some f → f.seed = some s.current.minute ∧ s.increment_minute = f.into_increment) ∧
    (e.minute = none → s.current.minute = now.minute ∧
      s.increment_minute = .Range (RangeTicker.with_current 0 59 now.minute)) ∧
    (∀ f, e.hour = some f → f.seed = some s.current.hour ∧ s.increment_hour = f.into_increment) ∧
    (e.hour = none → s.current.hour = now.hour ∧
      s.increment_hour = .Range (RangeTicker.with_current 0 23 now.hour)) ∧
    (∀ f, e.dom = some f → f.seed = some s.current.day ∧ s.increment_dom = f.into_increment) ∧
    (e.dom = none → s.current.day = now.day ∧
      s.increment_dom = .Range (RangeTicker.with_current 1 31 now.day)) ∧
    (∀ f, e.month = some f → f.seed = some s.current.month ∧ s.increment_month = f.into_increment) ∧
    (e.month = none → s.current.month = now.month ∧
      s.increment_month = .Range (RangeTicker.with_current 1 12 now.month)) ∧
    (∀ x : Nat, (Field.Single x : Field Nat).seed = some x) ∧
    (∀ (x : Nat) (xs : List Nat), (Field.Multiple (x :: xs) : Field Nat).seed = some x) ∧
    (∀ a b : Nat, (Field.Range a b : Field Nat).seed = some a) := by
  unfold Expression.into_schedule at h
  rcases h1 : seedOf e.minute now.minute with _ | m <;> rw [h1] at h
  · exact absurd h (by simp)
  rcases h2 : seedOf e.hour now.hour with _ | hr <;> rw [h2] at h
  · exact absurd h (by simp)
  rcases h3 : seedOf e.dom now.day with _ | d <;> rw [h3] at h
  · exact absurd h (by simp)
  rcases h4 : seedOf e.month now.month with _ | mo <;> rw [h4] at h
  · exact absurd h (by simp)
  simp only [Option.some.injEq] at h
  subst h
  refine ⟨rfl, ?_, ?_, ?_, ?_, ?_, ?_, ?_, ?_, fun x => rfl, fun x xs => rfl, fun a b => rfl⟩
  · intro f hf
    rw [hf] at h1
    exact ⟨h1, by simp [incOf, hf]⟩
  · intro hf
    rw [hf] at h1
    simp only [seedOf, Option.some.injEq] at h1
    subst h1
    exact ⟨rfl, by simp [incOf, hf]⟩
  · intro f hf
    rw [hf] at h2
    exact ⟨h2, by simp [incOf, hf]⟩
  · intro hf
    rw [hf] at h2
    simp only [seedOf, Option.some.injEq] at h2
    subst h2
    exact ⟨rfl, by simp [incOf, hf]⟩
  · intro f hf
    rw [hf] at h3
    exact ⟨h3, by simp [incOf, hf]⟩
  · intro hf
    rw [hf] at h3
    simp only [seedOf, Option.some.injEq] at h3
    subst h3
    exact ⟨rfl, by simp [incOf, hf]⟩
  · intro f hf
    rw [hf] at h4
    exact ⟨h4, by simp [incOf, hf]⟩
  · intro hf
    rw [hf] at h4
    simp only [seedOf, Option.some.injEq] at h4
    subst h4
    exact ⟨rfl, by simp [incOf, hf]⟩

/-- Witness for `into_schedule_seeding` at the expression `e6` and
moment `now6`: the specified minute field seeds 0, the unspecified
day-of-month seeds from the moment with a full-domain ticker, and the
year comes from the moment. -/
theorem into_schedule_seeding_witness :
    s6.current.year = now6.year ∧
    (Field.Single 0 : Field Nat).seed = some s6.current.minute ∧
    s6.current.day = now6.day ∧
    s6.increment_dom = .Range (RangeTicker.with_current 1 31 now6.day) := by
  have h := into_schedule_seeding e6 now6 s6 (by decide)
  obtain ⟨hy, hmin, -, -, -, -, hdom, -⟩ := h
  obtain ⟨hseed, -⟩ := hmin (Field.Single 0) rfl
  obtain ⟨hd1, hd2⟩ := hdom rfl
  exact ⟨hy, hseed, hd1, hd2⟩

end Cronk
